import Mathlib

/-
  Verification development for the byol-pytorch repository (hagiss fork).

  Shallow embedding of the parts of the code the claims are about:
  * `pl_train_moco.py`  : `PLLearner.momentum_update`, `PLLearner.info_nce_loss`,
    `PLLearner.info_nce_loss_layer`, `PLLearner.training_step`,
    `PLLearner.validation_epoch_end` (the KNN evaluator);
  * `pl_train_simclr.py`: `PLLearner.info_nce_loss` (self-similarity form);
  * `vision_transformer.py` : `PatchEmbed`, `Block`, `VisionTransformer.prepare_tokens`,
    `VisionTransformer.build_2d_sincos_position_embedding`, `VisionTransformer.forward`,
    `VisionTransformer.get_last_selfattention`.

  Machine floats are modelled as exact numbers (ℚ where the claims are purely
  algebraic, ℝ where `exp` / `log` / `sqrt` are involved); tensors are modelled
  either as index functions `Fin _ → ℝ`, as lists of parameters, or — for the
  claims that are purely about tensor shapes and runtime shape errors — by an
  executable shape semantics where `none` denotes a raised runtime error.
-/

namespace ByolPytorch

/-! ### Parameter state of `PLLearner` (pl_train_moco.py)

`self.student` / `self.teacher` are `NetWrapper`s around a backbone (`.net`)
plus a projector.  Parameters are modelled as flat lists of exact rationals,
in the order `zip` enumerates them. -/

structure LearnerParams where
  studentNet : List ℚ
  studentProj : List ℚ
  /-- parameters of `self.student.projector[-1]` (used when `st_inter ≠ t_inter`). -/
  studentProjLast : List ℚ
  teacherNet : List ℚ
  teacherProj : List ℚ
  stInter : Bool
  tInter : Bool
deriving DecidableEq

/-- One parameter's exponential moving average step, from
`ma_params.data = old_weight * m + (1 - m) * up_weight` (pl_train_moco.py:241). -/
def ema_update (m up old : ℚ) : ℚ := old * m + (1 - m) * up

/-- Effect of one `for current_params, ma_params in zip(...)` loop of
`PLLearner.momentum_update`: the zipped prefix of the teacher parameter list is
overwritten with the EMA value, parameters beyond the zip (if any) keep their
old value. -/
def momentum_update_params (m : ℚ) (student teacher : List ℚ) : List ℚ :=
  List.zipWith (fun cur ma => ema_update m cur ma) student teacher
    ++ teacher.drop student.length

/-- `PLLearner.momentum_update` (pl_train_moco.py:237-250): backbone (`.net`)
parameters are always EMA-updated; the projector update has two branches
depending on `st_inter != t_inter`.  `m` is the entry `momentum_schedule[global_step]`. -/
def momentum_update (m : ℚ) (st : LearnerParams) : LearnerParams :=
  { st with
    teacherNet := momentum_update_params m st.studentNet st.teacherNet
    teacherProj :=
      if st.stInter != st.tInter then
        momentum_update_params m st.studentProjLast st.teacherProj
      else
        momentum_update_params m st.studentProj st.teacherProj }

/-! ### Optimizer step and phase ordering of `PLLearner.training_step` (C7) -/

/-- Identity of a single trainable tensor of the learner. -/
inductive ParamKey where
  | studentNetP (i : ℕ)
  | studentProjP (i : ℕ)
  | teacherNetP (i : ℕ)
  | teacherProjP (i : ℕ)
deriving DecidableEq

/-- Modelled from the spec: `utils.get_params_groups(self.student)` (utils.py is
not part of the provided sources).  Per the spec, the optimizer's parameter
groups are built from the student only ("Shared resources (model parameter
tensors) are mutated only by the single designated updater (optimizer step for
student, momentum formula for teacher)"); teacher parameters all have
`requires_grad = False` (pl_train_moco.py:88-89) and are never passed to the
optimizer. -/
def inOptimizerGroups : ParamKey → Bool
  | .studentNetP _ => true
  | .studentProjP _ => true
  | .teacherNetP _ => false
  | .teacherProjP _ => false

/-- `opt.step()`: the optimizer applies some update rule `upd` to exactly the
parameters contained in its parameter groups. -/
def optimizer_step (upd : ParamKey → ℚ → ℚ) (params : ParamKey → ℚ) : ParamKey → ℚ :=
  fun p => if inOptimizerGroups p then upd p (params p) else params p

/-- The successive phases of one `PLLearner.training_step`
(pl_train_moco.py:178-226), in source order. -/
inductive Phase where
  | update_lr
  | forward_views
  | gather_teacher
  | compute_loss
  | zero_grad
  | backward
  | opt_step
  | log_loss
  | teacher_momentum_update
deriving DecidableEq, BEq

/-- The phase sequence of `PLLearner.training_step`, read off the source:
`update_lr` (line 182), forward of both views (184), all-gather of teacher
outputs (191-192), loss computation (194-215), `opt.zero_grad()` (218),
`manual_backward` (219), `opt.step()` (220), loss logging (222),
`momentum_update()` (224). -/
def training_step_phases : List Phase :=
  [.update_lr, .forward_views, .gather_teacher, .compute_loss,
   .zero_grad, .backward, .opt_step, .log_loss, .teacher_momentum_update]

/-! ### Shape semantics of the Vision Transformer (C2, C3)

A tensor shape is tracked explicitly; `none` models a raised runtime error
(shape mismatch in a matmul / reshape / broadcast). -/

/-- Shape of a 3-d tensor `(batch, tokens, channels)`. -/
structure Shape3 where
  B : ℕ
  N : ℕ
  C : ℕ
deriving DecidableEq

/-- Shape of a 4-d attention tensor `(batch, heads, tokens, tokens)`. -/
structure Shape4 where
  B : ℕ
  H : ℕ
  N1 : ℕ
  N2 : ℕ
deriving DecidableEq

/-- Shape of an input image batch `(batch, channels, height, width)`. -/
structure ImgShape where
  B : ℕ
  C : ℕ
  H : ℕ
  W : ℕ
deriving DecidableEq

/-- Constructor arguments of `VisionTransformer` that the claims depend on. -/
structure VitCfg where
  imgSize : ℕ
  patchSize : ℕ
  inChans : ℕ
  embedDim : ℕ
  depth : ℕ
  numHeads : ℕ
  mlpHidden : ℕ
  disTok : Bool
deriving DecidableEq

/-- `nn.Linear(inF, outF)` applied to a tensor: requires the last dimension to
equal `inF`, otherwise the underlying matmul raises. -/
def linear_shape (inF outF : ℕ) (s : Shape3) : Option Shape3 :=
  if s.C = inF then some ⟨s.B, s.N, outF⟩ else none

/-- `Attention.forward` (vision_transformer.py:83-95): `qkv = nn.Linear(dim, dim*3)`,
reshape to `(B, N, 3, num_heads, C // num_heads)` (requires `num_heads ∣ C`),
softmax attention `(B, heads, N, N)`, recombine, `proj = nn.Linear(dim, dim)`.
Returns `(x, attn)` shapes. -/
def attention_shape (dim numHeads : ℕ) (s : Shape3) : Option (Shape3 × Shape4) :=
  if s.C = dim ∧ 0 < numHeads ∧ s.C % numHeads = 0 then
    some (⟨s.B, s.N, dim⟩, ⟨s.B, numHeads, s.N, s.N⟩)
  else
    none

/-- `Block.forward` with `return_attention=False` (vision_transformer.py:111-118):
`x = self.proj(x)` where `self.proj = nn.Linear(2*dim, dim)` (line 102), then
norm, attention, residual adds and the MLP `dim → mlp_hidden → dim`. -/
def block_shape (dim numHeads mlpHidden : ℕ) (s : Shape3) : Option Shape3 :=
  (linear_shape (2 * dim) dim s).bind fun x =>
    (attention_shape dim numHeads x).bind fun _ =>
      (linear_shape dim mlpHidden x).bind fun h =>
        (linear_shape mlpHidden dim h).bind fun _ =>
          some x

/-- `Block.forward` with `return_attention=True`: `self.proj`, then the
attention matrix of `self.attn` is returned directly. -/
def block_attn_shape (dim numHeads : ℕ) (s : Shape3) : Option Shape4 :=
  (linear_shape (2 * dim) dim s).bind fun x =>
    (attention_shape dim numHeads x).bind fun r =>
      some r.2

/-- `PatchEmbed.forward` (vision_transformer.py:134-137): a
`Conv2d(in_chans, embed_dim, kernel_size=patch_size, stride=patch_size)`
followed by flatten/transpose.  Requires matching channel count and a spatial
extent of at least one kernel; output token count is `(H/p) * (W/p)`
(floor division, as for a stride-`p` convolution). -/
def conv_patch_shape (cfg : VitCfg) (x : ImgShape) : Option Shape3 :=
  if x.C = cfg.inChans ∧ 0 < cfg.patchSize ∧ cfg.patchSize ≤ x.H ∧ cfg.patchSize ≤ x.W then
    some ⟨x.B, (x.H / cfg.patchSize) * (x.W / cfg.patchSize), cfg.embedDim⟩
  else
    none

/-- `1` for the class token alone, `2` when a distillation token is used
(vision_transformer.py:264, 280-284). -/
def num_special_tokens (cfg : VitCfg) : ℕ := if cfg.disTok then 2 else 1

/-- Token count of `self.pos_embed` as built by
`build_2d_sincos_position_embedding` (vision_transformer.py:250-266):
the special tokens plus a `ceil(img_size / patch_size)²` grid
(`grid_size` is a float division, and `torch.arange(w)` on a float `w`
yields `⌈w⌉` entries). -/
def pos_embed_len (cfg : VitCfg) : ℕ :=
  num_special_tokens cfg
    + ((cfg.imgSize + cfg.patchSize - 1) / cfg.patchSize)
      * ((cfg.imgSize + cfg.patchSize - 1) / cfg.patchSize)

/-- `VisionTransformer.prepare_tokens` (vision_transformer.py:272-289):
patch embedding, (detach,) prepend the class token (and the distillation token
when present), then `x = x + self.pos_embed` — a broadcast that raises unless
the token counts agree. -/
def prepare_tokens_shape (cfg : VitCfg) (x : ImgShape) : Option Shape3 :=
  (conv_patch_shape cfg x).bind fun p =>
    if num_special_tokens cfg + p.N = pos_embed_len cfg then
      some ⟨x.B, num_special_tokens cfg + p.N, cfg.embedDim⟩
    else none

/-- `k` successive plain block applications (`x = blk(x)`), as in the loop of
`get_last_selfattention` for all blocks but the last. -/
def iterate_blocks (dim numHeads mlpHidden : ℕ) : ℕ → Shape3 → Option Shape3
  | 0, s => some s
  | k + 1, s => (block_shape dim numHeads mlpHidden s).bind (iterate_blocks dim numHeads mlpHidden k)

/-- `VisionTransformer.get_last_selfattention` (vision_transformer.py:301-308):
`prepare_tokens`, then `x = blk(x)` for every block but the last and
`blk(x, return_attention=True)` on the last.  NOTE: unlike
`VisionTransformer.forward`, no `torch.cat([x, x], dim=-1)` is performed before
the block calls.  For `depth = 0` the Python loop body never runs and the
function returns `None`; this is also modelled as `none`. -/
def get_last_selfattention_shape (cfg : VitCfg) (x : ImgShape) : Option Shape4 :=
  (prepare_tokens_shape cfg x).bind fun s =>
    if cfg.depth = 0 then none
    else
      (iterate_blocks cfg.embedDim cfg.numHeads cfg.mlpHidden (cfg.depth - 1) s).bind fun t =>
        block_attn_shape cfg.embedDim cfg.numHeads t

/-! ### Construction-time checks of `VisionTransformer.__init__` (C4, C9) -/

/-- The assertion message of `build_2d_sincos_position_embedding`
(vision_transformer.py:255). -/
def sincos_msg : String :=
  "Embed dimension must be divisible by 4 for 2D sin-cos position embedding"

/-- `VisionTransformer.build_2d_sincos_position_embedding`
(vision_transformer.py:250-270): `assert self.embed_dim % 4 == 0` raises an
`AssertionError` with the message above; on success the (non-trainable)
positional embedding with `pos_embed_len` tokens is installed. -/
def build_2d_sincos_position_embedding (cfg : VitCfg) : Except String ℕ :=
  if cfg.embedDim % 4 = 0 then Except.ok (pos_embed_len cfg) else Except.error sincos_msg

/-- The construction-time state of a `VisionTransformer` relevant to the
claims: the positional-embedding length and the `requires_grad` flags set by
`__init__`. -/
structure VitState where
  posLen : ℕ
  patchProjWeightGrad : Bool
  patchProjBiasGrad : Bool
  clsTokenGrad : Bool
  posEmbedGrad : Bool
deriving DecidableEq

/-- `VisionTransformer.__init__` (vision_transformer.py:142-209): builds the
patch embedding and tokens, calls `build_2d_sincos_position_embedding`
(line 159, may raise), and at lines 208-209 sets
`self.patch_embed.proj.weight.requires_grad = False` and
`self.patch_embed.proj.bias.requires_grad = False`; `self.pos_embed` is
non-trainable (line 270) while `self.cls_token` is an ordinary `nn.Parameter`. -/
def vit_init (cfg : VitCfg) : Except String VitState :=
  match build_2d_sincos_position_embedding cfg with
  | Except.error e => Except.error e
  | Except.ok n =>
      Except.ok { posLen := n
                  patchProjWeightGrad := false
                  patchProjBiasGrad := false
                  clsTokenGrad := true
                  posEmbedGrad := false }

/-! ### Autograd dependency tracking for `prepare_tokens` (C9)

A tensor is modelled by the list of ids of parameters on which its value
depends *differentiably* (i.e. through which a backward pass would propagate
gradients).  `detach` empties that list. -/

/-- Parameter ids: `0` = patch projection weight, `1` = patch projection bias,
`2` = `cls_token`, `3` = `pos_embed`. -/
def patchWeightId : ℕ := 0

def patchBiasId : ℕ := 1

def clsTokenId : ℕ := 2

def posEmbedId : ℕ := 3

structure GradTensor where
  deps : List ℕ
deriving DecidableEq

/-- `Tensor.detach()`: same value, no gradient flow to anything. -/
def detach (_t : GradTensor) : GradTensor := { deps := [] }

/-- Output of `self.patch_embed(x)`: depends differentiably on the projection
weight/bias exactly when their `requires_grad` flags are set. -/
def patch_embed_out (weightGrad biasGrad : Bool) : GradTensor :=
  { deps := (if weightGrad then [patchWeightId] else [])
      ++ (if biasGrad then [patchBiasId] else []) }

/-- `VisionTransformer.prepare_tokens` (vision_transformer.py:272-289) at the
autograd level: patch embedding, `x = x.detach()` when `dino is False`,
concatenation with the class token, addition of `self.pos_embed`. -/
def prepare_tokens_grad (st : VitState) (dino : Bool) : GradTensor :=
  let x := patch_embed_out st.patchProjWeightGrad st.patchProjBiasGrad
  let x := if dino = false then detach x else x
  let withCls : GradTensor :=
    { deps := (if st.clsTokenGrad then [clsTokenId] else []) ++ x.deps }
  { deps := withCls.deps ++ (if st.posEmbedGrad then [posEmbedId] else []) }

/-! ### Value-level model of `VisionTransformer.forward` (C8)

Token tensors are index functions `Fin B → Fin N → Fin E → ℝ`.  The per-block
computation (attention, MLP) is irrelevant to C8 — which is about the final
reduction — so the blocks and the per-depth layer norms are taken as given
functions with the source's shapes: a block consumes the channel-doubled input
`torch.cat([x, x], dim=-1)` and produces an `E`-channel output
(vision_transformer.py:291-299). -/

/-- A `(batch, tokens, channels)` tensor of reals. -/
def Tens (B N E : ℕ) : Type := Fin B → Fin N → Fin E → ℝ

/-- `torch.cat([x, y], dim=-1)`. -/
def catLastDim {B N E : ℕ} (x y : Tens B N E) : Tens B N (E + E) :=
  fun b n j =>
    if h : (j : ℕ) < E then x b n ⟨j, h⟩
    else y b n ⟨(j : ℕ) - E, by have hj := j.isLt; omega⟩

/-- `VisionTransformer.forward` (vision_transformer.py:291-299), given the
prepared token sequence `x0 = self.prepare_tokens(x, dino)`: for each block
`x = blk(torch.cat([x, x], dim=-1))`, then `x = self.norms[-1](x)` and finally
`return x.mean(dim=1)` — a mean over the whole token axis. -/
noncomputable def vit_forward {B N E : ℕ} (depth : ℕ)
    (blocks : ℕ → (Tens B N (E + E) → Tens B N E))
    (norms : ℕ → (Tens B N E → Tens B N E))
    (x0 : Tens B N E) : Fin B → Fin E → ℝ :=
  let xfin := (List.range depth).foldl (fun x i => blocks i (catLastDim x x)) x0
  let z := norms (depth - 1) xfin
  fun b e => (∑ n, z b n e) / (N : ℝ)

/-- Concrete instantiation used to separate "mean over all tokens" from
"class token alone": one batch, two tokens, one channel, one depth. -/
def exTokens : Tens 1 2 1 := fun _ n _ => 2 * (n : ℝ)

/-- A concrete block function: project the doubled channels back to the first
half (so it acts as the identity on `catLastDim x x`). -/
def exBlocks : ℕ → (Tens 1 2 (1 + 1) → Tens 1 2 1) :=
  fun _ t => fun b n _ => t b n ⟨0, by omega⟩

/-- A concrete layer norm function: the identity. -/
def exNorms : ℕ → (Tens 1 2 1 → Tens 1 2 1) := fun _ t => t

/-! ### L2 normalization, similarity matrices and the InfoNCE losses (C5, C10) -/

/-- Dot product of two `d`-dimensional feature vectors. -/
noncomputable def dotp {d : ℕ} (x y : Fin d → ℝ) : ℝ := ∑ i, x i * y i

/-- `F.normalize(x, dim=-1, p=2)` on one vector: `x / ‖x‖₂` (the float code
guards the denominator with a tiny `eps`; in exact arithmetic the zero vector
maps to the zero vector, which Lean's `x / 0 = 0` convention reproduces). -/
noncomputable def l2normalize {d : ℕ} (x : Fin d → ℝ) : Fin d → ℝ :=
  fun i => x i / Real.sqrt (dotp x x)

/-- `torch.matmul(F.normalize(s), F.normalize(t).T)`: the cosine-similarity
matrix between two batches of feature vectors. -/
noncomputable def sim_matrix {b bt d : ℕ} (s : Fin b → Fin d → ℝ) (t : Fin bt → Fin d → ℝ) :
    Fin b → Fin bt → ℝ :=
  fun i j => dotp (l2normalize (s i)) (l2normalize (t j))

/-- `nn.CrossEntropyLoss()` with the default mean reduction:
`(1/b) ∑ᵢ (log ∑ⱼ exp(logits i j) - logits i (labels i))`. -/
noncomputable def cross_entropy_mean {b c : ℕ} (logits : Fin b → Fin c → ℝ)
    (labels : Fin b → Fin c) : ℝ :=
  (∑ i, (Real.log (∑ j, Real.exp (logits i j)) - logits i (labels i))) / (b : ℝ)

/-- `labels = torch.arange(batch_size) + batch_size * rank`
(pl_train_moco.py:141): sample `i`'s positive is its same-index counterpart in
the rank-offset slice of the gathered (`world * b`-row) teacher batch. -/
def nce_label {w b : ℕ} (rank : Fin w) (i : Fin b) : Fin (w * b) :=
  ⟨i.val + b * rank.val, by
    have h1 := i.isLt
    have h2 := rank.isLt
    have h3 : b * rank.val + b ≤ b * w := by
      calc b * rank.val + b = b * (rank.val + 1) := by ring
        _ ≤ b * w := Nat.mul_le_mul_left b (Nat.succ_le_of_lt h2)
    have h4 : b * w = w * b := Nat.mul_comm b w
    omega⟩

/-- The tail of `PLLearner.info_nce_loss` (pl_train_moco.py:148-152) as a
function of the similarity matrix: `tau = 0.2`, `logits = S / tau`,
`loss = criterion(logits, labels)`, `return 2*tau*loss`. -/
noncomputable def moco_loss_of_sim {w b : ℕ} (rank : Fin w) (S : Fin b → Fin (w * b) → ℝ) : ℝ :=
  let tau : ℝ := 0.2
  2 * tau * cross_entropy_mean (fun i j => S i j / tau) (fun i => nce_label rank i)

/-- `PLLearner.info_nce_loss` (pl_train_moco.py:138-152): `s_features` is the
local student batch (`b` rows), `t_features` the gathered teacher batch
(`w * b` rows, `w` = world size, this process at `rank`). -/
noncomputable def info_nce_loss {w b d : ℕ} (rank : Fin w)
    (s : Fin b → Fin d → ℝ) (t : Fin (w * b) → Fin d → ℝ) : ℝ :=
  moco_loss_of_sim rank (sim_matrix s t)

/-- `labels` of `PLLearner.info_nce_loss_layer` (pl_train_moco.py:162): `depth`
concatenated copies of `arange(b') + b' * rank`, one per layer slice. -/
def layer_label {w b' dep : ℕ} (rank : Fin w) (i : Fin (dep * b')) : Fin (w * b') :=
  ⟨i.val % b' + b' * rank.val, by
    have h1 := i.isLt
    have h2 := rank.isLt
    rcases Nat.eq_zero_or_pos b' with hb | hb
    · subst hb; simp at h1
    · have hm : i.val % b' < b' := Nat.mod_lt _ hb
      have h3 : b' * rank.val + b' ≤ b' * w := by
        calc b' * rank.val + b' = b' * (rank.val + 1) := by ring
          _ ≤ b' * w := Nat.mul_le_mul_left b' (Nat.succ_le_of_lt h2)
      have h4 : b' * w = w * b' := Nat.mul_comm b' w
      omega⟩

/-- The tail of `PLLearner.info_nce_loss_layer` (pl_train_moco.py:164-173) as a
function of the similarity matrix. -/
noncomputable def moco_layer_loss_of_sim {w b' dep : ℕ} (rank : Fin w)
    (S : Fin (dep * b') → Fin (w * b') → ℝ) : ℝ :=
  let tau : ℝ := 0.2
  2 * tau * cross_entropy_mean (fun i j => S i j / tau) (fun i => layer_label rank i)

/-- `PLLearner.info_nce_loss_layer` (pl_train_moco.py:154-173): the student
features carry `dep` layer slices of `b'` rows each (`batch_size /= depth`). -/
noncomputable def info_nce_loss_layer {w b' dep d : ℕ} (rank : Fin w)
    (s : Fin (dep * b') → Fin d → ℝ) (t : Fin (w * b') → Fin d → ℝ) : ℝ :=
  moco_layer_loss_of_sim rank (sim_matrix s t)

/-! ### Self-similarity InfoNCE of `pl_train_simclr.py` (C5) -/

/-- The unique other view of sample `i` in the doubled batch: rows `< m` are
view one, rows `≥ m` view two, and `labels[i] == labels[j]` with `j ≠ i` holds
exactly for the counterpart row (pl_train_simclr.py:134-136). -/
def simclr_partner {m : ℕ} (i : Fin (2 * m)) : Fin (2 * m) :=
  ⟨if i.val < m then i.val + m else i.val - m, by have := i.isLt; split <;> omega⟩

/-- The negatives of row `i`: every row other than `i` itself and its partner,
in batch order (the masked similarity matrix row, pl_train_simclr.py:143-150). -/
def simclr_others {m : ℕ} (i : Fin (2 * m)) : List (Fin (2 * m)) :=
  (List.finRange (2 * m)).filter (fun j => decide (j ≠ i ∧ j ≠ simclr_partner i))

/-- The tail of the SimCLR `PLLearner.info_nce_loss` (pl_train_simclr.py:140-157)
as a function of the self-similarity matrix: per row the logits are the one
positive followed by the negatives, divided by the temperature, and the
cross-entropy target is position `0`; mean reduction over the `2*m` rows. -/
noncomputable def simclr_loss_of_sim {m : ℕ} (temperature : ℝ)
    (S : Fin (2 * m) → Fin (2 * m) → ℝ) : ℝ :=
  (∑ i : Fin (2 * m),
      (Real.log
          (((S i (simclr_partner i) :: (simclr_others i).map (fun j => S i j)).map
              (fun l => Real.exp (l / temperature))).sum)
        - S i (simclr_partner i) / temperature)) / ((2 * m : ℕ) : ℝ)

/-- SimCLR `PLLearner.info_nce_loss` (pl_train_simclr.py:131-157): the features
are the concatenation of both augmented views of an `m`-sample batch. -/
noncomputable def simclr_info_nce_loss {m d : ℕ} (temperature : ℝ)
    (features : Fin (2 * m) → Fin d → ℝ) : ℝ :=
  simclr_loss_of_sim temperature (sim_matrix features features)

/-! ### KNN evaluator of `PLLearner.validation_epoch_end` (C6)

pl_train_moco.py:268-337, modelled for a single process (`world_size = 1`; the
distributed all-gathers only concatenate the per-rank banks).  The feature bank
is a list of (pre-normalization) embedding vectors with a parallel label list;
for each validation sample the code normalizes, takes the `k = 20` most
similar bank entries (`similarity.topk(k, largest=True, sorted=True)`), forms
per-class scores by summing `exp(similarity / 0.07)` over the retrieved
neighbors of that class (`retrieval_one_hot` / `distances_transform` / `probs`)
and predicts the class of largest score (`probs.sort(1, True)` then
`narrow(1, 0, 1)`). -/

/-- Neighbor weight `exp(similarity / 0.07)`
(`distances.clone().div_(0.07).exp_()`, pl_train_moco.py:311). -/
noncomputable def knn_weight (sim : ℝ) : ℝ := Real.exp (sim / 0.07)

/-- Descending order on (index, similarity) pairs, by similarity. -/
def knn_r (p q : ℕ × ℝ) : Prop := q.2 ≤ p.2

instance : IsTotal (ℕ × ℝ) knn_r := ⟨fun a b => le_total b.2 a.2⟩

instance : IsTrans (ℕ × ℝ) knn_r := ⟨fun _ _ _ h1 h2 => le_trans h2 h1⟩

noncomputable instance : DecidableRel knn_r := fun p q => Real.decidableLE q.2 p.2

/-- One validation sample's similarity row: cosine similarity of the
(normalized) sample embedding against each (normalized) bank entry
(`torch.mm(features, train_features)`, pl_train_moco.py:297). -/
noncomputable def knn_sims {d : ℕ} (bank : List (Fin d → ℝ)) (q : Fin d → ℝ) : ℕ → ℝ :=
  fun i => dotp (l2normalize q) (l2normalize (bank.getD i 0))

/-- The similarity row paired with its bank indices. -/
noncomputable def knn_pairs {d : ℕ} (bank : List (Fin d → ℝ)) (q : Fin d → ℝ) :
    List (ℕ × ℝ) :=
  (List.range bank.length).map (fun i => (i, knn_sims bank q i))

/-- `similarity.topk(20, largest=True, sorted=True)` on one validation sample's
similarity row: the bank indices paired with their cosine similarity, sorted by
descending similarity, truncated to the first 20.  (The code raises when the
bank holds fewer than 20 entries; the theorems below assume `20 ≤ bank.length`.) -/
noncomputable def knn_topk {d : ℕ} (bank : List (Fin d → ℝ)) (q : Fin d → ℝ) :
    List (ℕ × ℝ) :=
  (List.insertionSort knn_r (knn_pairs bank q)).take 20

/-- Per-class score: the sum of `exp(sim / 0.07)` over the retrieved neighbors
carrying that class label (`probs`, pl_train_moco.py:313-319). -/
noncomputable def knn_probs (labels : List ℕ) (top : List (ℕ × ℝ)) (c : ℕ) : ℝ :=
  (top.map (fun p => if labels.getD p.1 0 = c then knn_weight p.2 else 0)).sum

open Classical in
/-- Arg-max scan over candidate classes, keeping the earlier class on ties
(`probs.sort(1, True)` followed by taking the first column). -/
noncomputable def argmax_aux (f : ℕ → ℝ) (l : List ℕ) (b : ℕ) : ℕ :=
  l.foldl (fun best c => if f best < f c then c else best) b

/-- `num_classes = 1000` (pl_train_moco.py:282). -/
def knn_num_classes : ℕ := 1000

/-- The top-1 prediction for one validation sample. -/
noncomputable def knn_predict {d : ℕ} (bank : List (Fin d → ℝ)) (labels : List ℕ)
    (q : Fin d → ℝ) : ℕ :=
  argmax_aux (knn_probs labels (knn_topk bank q)) (List.range knn_num_classes) 0

open Classical in
/-- `validation_epoch_end`'s reported `top1` figure: `100 * correct / total`
over the whole validation set; `none` models the `topk` runtime error raised
when the bank holds fewer than `k = 20` entries. -/
noncomputable def knn_top1 {d : ℕ} (bank : List (Fin d → ℝ)) (labels : List ℕ)
    (val : List ((Fin d → ℝ) × ℕ)) : Option ℝ :=
  if bank.length < 20 then none
  else
    some ((((val.filter (fun s => decide (knn_predict bank labels s.1 = s.2))).length : ℝ)
        * 100) / (val.length : ℝ))

/-! ### Concrete instances used by witnesses and counterexamples -/

/-- A one-dimensional unit feature vector. -/
def cexQ : Fin 1 → ℝ := fun _ => 1

/-- Counterexample bank for C6: twenty exact copies of the validation sample's
embedding. -/
def cexBank : List (Fin 1 → ℝ) := List.replicate 20 cexQ

/-- Counterexample labels for C6: the first copy carries the correct label `0`,
the nineteen others the wrong label `1`. -/
def cexLabels : List ℕ := 0 :: List.replicate 19 1

/-- Witness bank for the amended C6: the sample's exact duplicate followed by
nineteen zero vectors (cosine similarity `0` to everything). -/
def wBank : List (Fin 1 → ℝ) := cexQ :: List.replicate 19 (fun _ => (0 : ℝ))

/-- Witness labels for the amended C6: the duplicate carries the correct label
`0`, the zero vectors a different label `7`. -/
def wLabels : List ℕ := 0 :: List.replicate 19 7

/-- Concrete learner parameters for the C1 witness. -/
def stW : LearnerParams :=
  { studentNet := [3, 5]
    studentProj := [2]
    studentProjLast := [2]
    teacherNet := [7, 9]
    teacherProj := [4]
    stInter := false
    tInter := false }

/-- A `vit_small`-like configuration (embed_dim 384, depth 12, heads 12,
patch 16, img 224), used as concrete failing input for C2 and witness for C3/C4. -/
def cfgSmall : VitCfg :=
  { imgSize := 224, patchSize := 16, inChans := 3, embedDim := 384, depth := 12
    numHeads := 12, mlpHidden := 1536, disTok := false }

/-- A configuration whose embedding dimension is not divisible by 4 (C4 witness). -/
def cfgBadDim : VitCfg :=
  { imgSize := 224, patchSize := 16, inChans := 3, embedDim := 6, depth := 12
    numHeads := 3, mlpHidden := 24, disTok := false }

/-- The construction-time state produced by `vit_init cfgSmall`
(`pos_embed_len cfgSmall = 1 + 14 * 14 = 197`). -/
def vitStateSmall : VitState :=
  { posLen := 197
    patchProjWeightGrad := false
    patchProjBiasGrad := false
    clsTokenGrad := true
    posEmbedGrad := false }

/-- Concrete student batch for the C10 witness (one row, one feature). -/
def cS10 : Fin 1 → Fin 1 → ℝ := fun _ _ => 1

/-- Concrete gathered teacher batch for the C10 witness (`w = 2` ranks). -/
def cT10 : Fin (2 * 1) → Fin 1 → ℝ := fun _ _ => 1

/-- Rank 0 of 2 (C10 witness). -/
def rank0 : Fin 2 := ⟨0, by omega⟩

/-! ## Helper lemmas -/

theorem momentum_update_params_getD (m : ℚ) :
    ∀ (s t : List ℚ), s.length = t.length → ∀ i, i < t.length →
      (momentum_update_params m s t).getD i 0
        = t.getD i 0 * m + (1 - m) * s.getD i 0 := by
  intro s
  induction s with
  | nil =>
    intro t hlen i hi
    simp only [List.length_nil] at hlen
    omega
  | cons a as ih =>
    intro t hlen i hi
    cases t with
    | nil => simp at hi
    | cons b bs =>
      simp only [List.length_cons, Nat.succ.injEq] at hlen
      cases i with
      | zero => simp [momentum_update_params, ema_update]
      | succ j =>
        have hj : j < bs.length := by simpa using hi
        have := ih bs hlen j hj
        simpa [momentum_update_params, ema_update] using this

theorem momentum_update_params_one : ∀ (s t : List ℚ), momentum_update_params 1 s t = t := by
  intro s
  induction s with
  | nil => intro t; simp [momentum_update_params]
  | cons a as ih =>
    intro t
    cases t with
    | nil => simp [momentum_update_params]
    | cons b bs =>
      have hmain := ih bs
      simp only [momentum_update_params, List.zipWith_cons_cons, List.length_cons,
        List.drop_succ_cons, List.cons_append, ema_update] at hmain ⊢
      exact congrArg₂ List.cons (by ring) hmain

theorem momentum_update_params_zero :
    ∀ (s t : List ℚ), s.length = t.length → momentum_update_params 0 s t = s := by
  intro s
  induction s with
  | nil =>
    intro t hlen
    have : t = [] := by
      cases t with
      | nil => rfl
      | cons b bs => simp at hlen
    subst this
    simp [momentum_update_params]
  | cons a as ih =>
    intro t hlen
    cases t with
    | nil => simp at hlen
    | cons b bs =>
      simp only [List.length_cons, Nat.succ.injEq] at hlen
      have hmain := ih bs hlen
      simp only [momentum_update_params, List.zipWith_cons_cons, List.length_cons,
        List.drop_succ_cons, List.cons_append, ema_update] at hmain ⊢
      exact congrArg₂ List.cons (by ring) hmain

theorem dotp_smul (a : ℝ) {d : ℕ} (u v : Fin d → ℝ) :
    dotp (fun i => a * u i) (fun i => a * v i) = a ^ 2 * dotp u v := by
  simp only [dotp, Finset.mul_sum]
  apply Finset.sum_congr rfl
  intro j _
  ring

theorem l2normalize_smul (c : ℝ) {d : ℕ} (x : Fin d → ℝ) :
    l2normalize (fun i => c * x i) = fun i => (c / |c|) * l2normalize x i := by
  funext i
  simp only [l2normalize]
  rw [dotp_smul, Real.sqrt_mul (sq_nonneg c), Real.sqrt_sq_eq_abs, mul_div_mul_comm]

theorem sim_matrix_smul (c : ℝ) (hc : c ≠ 0) {b bt d : ℕ}
    (s : Fin b → Fin d → ℝ) (t : Fin bt → Fin d → ℝ) :
    sim_matrix (fun i j => c * s i j) (fun i j => c * t i j) = sim_matrix s t := by
  funext i j
  show dotp (l2normalize (fun k => c * s i k)) (l2normalize (fun k => c * t j k))
    = dotp (l2normalize (s i)) (l2normalize (t j))
  rw [l2normalize_smul, l2normalize_smul, dotp_smul]
  have h1 : (c / |c|) ^ 2 = 1 := by
    rw [div_pow, sq_abs, div_self (pow_ne_zero 2 hc)]
  rw [h1, one_mul]

theorem dotp_self_nonneg {d : ℕ} (x : Fin d → ℝ) : 0 ≤ dotp x x :=
  Finset.sum_nonneg fun i _ => mul_self_nonneg (x i)

theorem dotp_self_eq_zero {d : ℕ} (x : Fin d → ℝ) (h : dotp x x = 0) : x = 0 := by
  funext i
  have hall := (Finset.sum_eq_zero_iff_of_nonneg
    (fun j _ => mul_self_nonneg (x j))).mp h i (Finset.mem_univ i)
  have : x i = 0 := by nlinarith
  simpa using this

theorem dotp_l2normalize_self {d : ℕ} (x : Fin d → ℝ) (hx : x ≠ 0) :
    dotp (l2normalize x) (l2normalize x) = 1 := by
  have hD : 0 < dotp x x := by
    rcases lt_or_eq_of_le (dotp_self_nonneg x) with h | h
    · exact h
    · exact absurd (dotp_self_eq_zero x h.symm) hx
  have hs : Real.sqrt (dotp x x) * Real.sqrt (dotp x x) = dotp x x :=
    Real.mul_self_sqrt (dotp_self_nonneg x)
  show (∑ i, (x i / Real.sqrt (dotp x x)) * (x i / Real.sqrt (dotp x x))) = 1
  have hterm : ∀ i, (x i / Real.sqrt (dotp x x)) * (x i / Real.sqrt (dotp x x))
      = (x i * x i) / (Real.sqrt (dotp x x) * Real.sqrt (dotp x x)) :=
    fun i => div_mul_div_comm _ _ _ _
  rw [Finset.sum_congr rfl fun i _ => hterm i, ← Finset.sum_div, hs]
  exact div_self hD.ne'

theorem dotp_l2normalize_self_le_one {d : ℕ} (x : Fin d → ℝ) :
    dotp (l2normalize x) (l2normalize x) ≤ 1 := by
  by_cases hx : x = 0
  · subst hx
    simp [dotp, l2normalize]
  · rw [dotp_l2normalize_self x hx]

theorem dotp_l2normalize_le_one {d : ℕ} (x y : Fin d → ℝ) :
    dotp (l2normalize x) (l2normalize y) ≤ 1 := by
  set u := l2normalize x with hu
  set v := l2normalize y with hv
  have hcs : (dotp u v) ^ 2 ≤ (dotp u u) * (dotp v v) := by
    have h := Finset.sum_mul_sq_le_sq_mul_sq Finset.univ u v
    have h1 : ∀ w : Fin d → ℝ, (∑ i, w i ^ 2) = dotp w w := by
      intro w
      exact Finset.sum_congr rfl fun i _ => sq (w i) ▸ (pow_two (w i))
    calc (dotp u v) ^ 2 ≤ (∑ i, u i ^ 2) * ∑ i, v i ^ 2 := h
      _ = (dotp u u) * (dotp v v) := by rw [h1 u, h1 v]
  have h2 : (dotp u v) ^ 2 ≤ 1 := by
    have := mul_le_one₀ (dotp_l2normalize_self_le_one x)
      (dotp_self_nonneg v) (dotp_l2normalize_self_le_one y)
    calc (dotp u v) ^ 2 ≤ (dotp u u) * (dotp v v) := hcs
      _ ≤ 1 := this
  nlinarith

theorem argmax_aux_const (f : ℕ → ℝ) (l : List ℕ) (cstar : ℕ) :
    (∀ x ∈ l, ¬ f cstar < f x) → argmax_aux f l cstar = cstar := by
  induction l with
  | nil => intro _; rfl
  | cons c t ih =>
    intro h
    have hc := h c (List.mem_cons_self c t)
    show argmax_aux f t (if f cstar < f c then c else cstar) = cstar
    rw [if_neg hc]
    exact ih fun x hx => h x (List.mem_cons_of_mem c hx)

theorem argmax_aux_eq (f : ℕ → ℝ) (l : List ℕ) (b cstar : ℕ) :
    cstar ∈ l → (b = cstar ∨ f b < f cstar) →
    (∀ x ∈ l, x ≠ cstar → f x < f cstar) → argmax_aux f l b = cstar := by
  induction l generalizing b with
  | nil => intro hmem; simp at hmem
  | cons c t ih =>
    intro hmem hb hlt
    have habsorb : ∀ x ∈ t, ¬ f cstar < f x := by
      intro x hx
      rcases eq_or_ne x cstar with rfl | hne
      · exact lt_irrefl _
      · exact lt_asymm (hlt x (List.mem_cons_of_mem c hx) hne)
    show argmax_aux f t (if f b < f c then c else b) = cstar
    by_cases hcc : c = cstar
    · subst hcc
      by_cases hfb : f b < f c
      · rw [if_pos hfb]
        exact argmax_aux_const f t c habsorb
      · rw [if_neg hfb]
        rcases hb with rfl | hfb2
        · exact argmax_aux_const f t b habsorb
        · exact absurd hfb2 hfb
    · have hmem2 : cstar ∈ t := by
        rcases List.mem_cons.mp hmem with h | h
        · exact absurd h.symm hcc
        · exact h
      have hclt : f c < f cstar := hlt c (List.mem_cons_self c t) hcc
      refine ih _ hmem2 ?_ fun x hx hne => hlt x (List.mem_cons_of_mem c hx) hne
      by_cases hfb : f b < f c
      · rw [if_pos hfb]
        exact Or.inr hclt
      · rw [if_neg hfb]
        exact hb

theorem knn_topk_length {d : ℕ} (bank : List (Fin d → ℝ)) (q : Fin d → ℝ) :
    (knn_topk bank q).length ≤ 20 := by
  rw [knn_topk, List.length_take]
  omega

theorem knn_topk_subset {d : ℕ} (bank : List (Fin d → ℝ)) (q : Fin d → ℝ) (p : ℕ × ℝ)
    (hp : p ∈ knn_topk bank q) :
    p.1 < bank.length ∧ p.2 = knn_sims bank q p.1 := by
  have h1 : p ∈ List.insertionSort knn_r (knn_pairs bank q) := List.mem_of_mem_take hp
  have h2 : p ∈ knn_pairs bank q := (List.perm_insertionSort knn_r _).mem_iff.mp h1
  obtain ⟨i, hi, hpe⟩ := List.mem_map.mp h2
  rw [← hpe]
  exact ⟨List.mem_range.mp hi, rfl⟩

theorem knn_topk_exists_ge {d : ℕ} (bank : List (Fin d → ℝ)) (q : Fin d → ℝ)
    (j : ℕ) (hj : j < bank.length) :
    ∃ p ∈ knn_topk bank q, knn_sims bank q j ≤ p.2 := by
  have hmem : (j, knn_sims bank q j) ∈ knn_pairs bank q :=
    List.mem_map.mpr ⟨j, List.mem_range.mpr hj, rfl⟩
  have hmem2 : (j, knn_sims bank q j) ∈ List.insertionSort knn_r (knn_pairs bank q) :=
    (List.perm_insertionSort knn_r _).mem_iff.mpr hmem
  cases hsort : List.insertionSort knn_r (knn_pairs bank q) with
  | nil => rw [hsort] at hmem2; simp at hmem2
  | cons h t =>
    refine ⟨h, ?_, ?_⟩
    · rw [knn_topk, hsort, show (20 : ℕ) = 19 + 1 from rfl, List.take_succ_cons]
      exact List.mem_cons_self h _
    · have hsorted := List.sorted_insertionSort knn_r (knn_pairs bank q)
      rw [hsort] at hsorted
      have hall := (List.sorted_cons.mp hsorted).1
      rw [hsort] at hmem2
      rcases List.mem_cons.mp hmem2 with heq | hmem3
      · rw [← heq]
      · exact hall _ hmem3

/-- Core of the amended C6: if the sample's embedding is non-zero, the bank
holds an exact duplicate of it carrying the correct (in-range) label, and
every bank entry with a different label has non-positive cosine similarity to
the sample, then the weighted-vote prediction is the correct label. -/
theorem knn_predict_correct {d : ℕ} (bank : List (Fin d → ℝ)) (labels : List ℕ)
    (q : Fin d → ℝ) (y : ℕ)
    (hy : y < knn_num_classes)
    (hq : q ≠ 0)
    (hdup : ∃ j, j < bank.length ∧ bank.getD j 0 = q ∧ labels.getD j 0 = y)
    (hortho : ∀ i, i < bank.length → labels.getD i 0 ≠ y → knn_sims bank q i ≤ 0) :
    knn_predict bank labels q = y := by
  obtain ⟨j, hj, hbj, hlj⟩ := hdup
  have hsj : knn_sims bank q j = 1 := by
    rw [knn_sims]
    rw [hbj]
    exact dotp_l2normalize_self q hq
  obtain ⟨p, hptop, hpge⟩ := knn_topk_exists_ge bank q j hj
  rw [hsj] at hpge
  obtain ⟨hpi, hpval⟩ := knn_topk_subset bank q p hptop
  have hple : p.2 ≤ 1 := by
    rw [hpval, knn_sims]
    exact dotp_l2normalize_le_one q _
  have hpeq : p.2 = 1 := le_antisymm hple hpge
  have hplabel : labels.getD p.1 0 = y := by
    by_contra hne
    have hh := hortho p.1 hpi hne
    rw [← hpval, hpeq] at hh
    norm_num at hh
  have hcorrect : knn_weight 1 ≤ knn_probs labels (knn_topk bank q) y := by
    apply List.single_le_sum
    · intro z hz
      obtain ⟨p', hp', hz'⟩ := List.mem_map.mp hz
      rw [← hz']
      by_cases hcl : labels.getD p'.1 0 = y
      · rw [if_pos hcl]
        exact (Real.exp_pos _).le
      · rw [if_neg hcl]
    · have hm : (if labels.getD p.1 0 = y then knn_weight p.2 else 0)
          ∈ (knn_topk bank q).map
            (fun r => if labels.getD r.1 0 = y then knn_weight r.2 else 0) :=
        List.mem_map_of_mem _ hptop
      rw [if_pos hplabel, hpeq] at hm
      exact hm
  have hwrong : ∀ c, c ≠ y → knn_probs labels (knn_topk bank q) c ≤ 20 := by
    intro c hc
    have hbound : ∀ z ∈ (knn_topk bank q).map
        (fun r => if labels.getD r.1 0 = c then knn_weight r.2 else 0), z ≤ 1 := by
      intro z hz
      obtain ⟨p', hp', hz'⟩ := List.mem_map.mp hz
      rw [← hz']
      by_cases hcl : labels.getD p'.1 0 = c
      · rw [if_pos hcl]
        obtain ⟨hpi', hpval'⟩ := knn_topk_subset bank q p' hp'
        have hsim_le : p'.2 ≤ 0 := by
          rw [hpval']
          refine hortho p'.1 hpi' ?_
          rw [hcl]
          exact hc
        have hdivle : p'.2 / 0.07 ≤ 0 := by
          rw [div_nonpos_iff]
          right
          exact ⟨hsim_le, by norm_num⟩
        calc knn_weight p'.2 = Real.exp (p'.2 / 0.07) := rfl
          _ ≤ Real.exp 0 := Real.exp_le_exp.mpr hdivle
          _ = 1 := Real.exp_zero
      · rw [if_neg hcl]
        norm_num
    have hsum := List.sum_le_card_nsmul _ (1 : ℝ) hbound
    have hlen : ((knn_topk bank q).map
        (fun r => if labels.getD r.1 0 = c then knn_weight r.2 else 0)).length ≤ 20 := by
      rw [List.length_map]
      exact knn_topk_length bank q
    calc knn_probs labels (knn_topk bank q) c
        ≤ (((knn_topk bank q).map
            (fun r => if labels.getD r.1 0 = c then knn_weight r.2 else 0)).length : ℕ)
            • (1 : ℝ) := hsum
      _ = (((knn_topk bank q).map
            (fun r => if labels.getD r.1 0 = c then knn_weight r.2 else 0)).length : ℝ) := by
          rw [nsmul_eq_mul, mul_one]
      _ ≤ 20 := by exact_mod_cast hlen
  have hbig : (20 : ℝ) < knn_weight 1 := by
    rw [knn_weight]
    have h1 : (4 : ℝ) ≤ 1 / 0.07 := by norm_num
    have h2 : Real.exp 4 ≤ Real.exp (1 / 0.07) := Real.exp_le_exp.mpr h1
    have h3 : (2.7182818283 : ℝ) ^ 4 < Real.exp 1 ^ 4 :=
      pow_lt_pow_left₀ Real.exp_one_gt_d9 (by norm_num) (by norm_num)
    have h4 : Real.exp 4 = Real.exp 1 ^ 4 := by
      rw [show (4 : ℝ) = ((4 : ℕ) : ℝ) * (1 : ℝ) by norm_num, Real.exp_nat_mul]
    have h5 : (20 : ℝ) < (2.7182818283 : ℝ) ^ 4 := by norm_num
    nlinarith
  have hprobs_lt : ∀ c, c ≠ y → knn_probs labels (knn_topk bank q) c
      < knn_probs labels (knn_topk bank q) y := by
    intro c hc
    calc knn_probs labels (knn_topk bank q) c ≤ 20 := hwrong c hc
      _ < knn_weight 1 := hbig
      _ ≤ knn_probs labels (knn_topk bank q) y := hcorrect
  rw [knn_predict]
  apply argmax_aux_eq
  · exact List.mem_range.mpr hy
  · rcases eq_or_ne 0 y with h0 | h0
    · exact Or.inl h0
    · exact Or.inr (hprobs_lt 0 h0)
  · intro x _ hne
    exact hprobs_lt x hne

/-! ## Claim theorems -/

/-- C1: `PLLearner.momentum_update` sets every teacher backbone parameter to
`m * teacher + (1 - m) * student` where `m` is the scheduled momentum passed in
for the current global step; with `m = 1` the teacher backbone is unchanged and
with `m = 0` it becomes an exact copy of the student backbone. -/
theorem momentum_update_spec (m : ℚ) (st : LearnerParams)
    (hlen : st.studentNet.length = st.teacherNet.length) :
    (∀ i, i < st.teacherNet.length →
        (momentum_update m st).teacherNet.getD i 0
          = st.teacherNet.getD i 0 * m + (1 - m) * st.studentNet.getD i 0)
      ∧ (momentum_update 1 st).teacherNet = st.teacherNet
      ∧ (momentum_update 0 st).teacherNet = st.studentNet := by
  refine ⟨?_, ?_, ?_⟩
  · intro i hi
    exact momentum_update_params_getD m st.studentNet st.teacherNet hlen i hi
  · exact momentum_update_params_one st.studentNet st.teacherNet
  · exact momentum_update_params_zero st.studentNet st.teacherNet hlen

/-- Witness for C1 at the concrete learner state `stW` and momentum `1/2`. -/
theorem momentum_update_spec_witness :
    (momentum_update (1 / 2) stW).teacherNet.getD 0 0 = 5
      ∧ (momentum_update 1 stW).teacherNet = stW.teacherNet
      ∧ (momentum_update 0 stW).teacherNet = stW.studentNet := by
  have h := momentum_update_spec (1 / 2) stW (by rfl)
  refine ⟨?_, h.2.1, h.2.2⟩
  rw [h.1 0 (by decide)]
  norm_num [stW]

/-- C7: within `PLLearner.training_step` the phases occur in the order
zero-grad, backward, optimizer step, momentum update, and the optimizer step
leaves every teacher parameter untouched (the optimizer's parameter groups are
built from the student only). -/
theorem training_step_order_and_teacher_frozen :
    (training_step_phases.indexOf Phase.zero_grad < training_step_phases.indexOf Phase.backward
        ∧ training_step_phases.indexOf Phase.backward
            < training_step_phases.indexOf Phase.opt_step
        ∧ training_step_phases.indexOf Phase.opt_step
            < training_step_phases.indexOf Phase.teacher_momentum_update)
      ∧ ∀ (upd : ParamKey → ℚ → ℚ) (params : ParamKey → ℚ) (i : ℕ),
          optimizer_step upd params (ParamKey.teacherNetP i)
              = params (ParamKey.teacherNetP i)
            ∧ optimizer_step upd params (ParamKey.teacherProjP i)
              = params (ParamKey.teacherProjP i) := by
  refine ⟨by decide, ?_⟩
  intro upd params i
  exact ⟨rfl, rfl⟩

/-- C4: constructing a `VisionTransformer` whose embedding dimension is not
divisible by 4 fails with the descriptive sin-cos assertion message; with a
dimension divisible by 4 this error is not raised. -/
theorem vit_init_embed_dim_check (cfg : VitCfg) :
    (cfg.embedDim % 4 ≠ 0 → vit_init cfg = Except.error sincos_msg)
      ∧ (cfg.embedDim % 4 = 0 → (vit_init cfg).isOk = true) := by
  constructor
  · intro h
    simp [vit_init, build_2d_sincos_position_embedding, h]
  · intro h
    simp [vit_init, build_2d_sincos_position_embedding, h, Except.isOk, Except.toBool]

/-- Witness for C4: `embed_dim = 6` aborts with the assertion message while
`embed_dim = 384` constructs fine. -/
theorem vit_init_embed_dim_check_witness :
    vit_init cfgBadDim = Except.error sincos_msg ∧ (vit_init cfgSmall).isOk = true :=
  ⟨(vit_init_embed_dim_check cfgBadDim).1 (by decide),
    (vit_init_embed_dim_check cfgSmall).2 (by decide)⟩

/-- C9: `__init__` freezes the patch-projection weight and bias
(`requires_grad = False`), and in the default `dino=False` path
`prepare_tokens` additionally detaches the patch embedding, so no gradient
reaches the patch-projection parameters — the last conjunct shows the detach
alone suffices for any flag state. -/
theorem patch_proj_frozen_and_detached (cfg : VitCfg) (st : VitState)
    (hok : vit_init cfg = Except.ok st) :
    st.patchProjWeightGrad = false ∧ st.patchProjBiasGrad = false
      ∧ patchWeightId ∉ (prepare_tokens_grad st false).deps
      ∧ patchBiasId ∉ (prepare_tokens_grad st false).deps
      ∧ ∀ st' : VitState,
          patchWeightId ∉ (prepare_tokens_grad st' false).deps
            ∧ patchBiasId ∉ (prepare_tokens_grad st' false).deps := by
  have hflags : st.patchProjWeightGrad = false ∧ st.patchProjBiasGrad = false := by
    unfold vit_init at hok
    cases hb : build_2d_sincos_position_embedding cfg with
    | error e => rw [hb] at hok; simp at hok
    | ok n =>
      rw [hb] at hok
      simp only [Except.ok.injEq] at hok
      rw [← hok]
      exact ⟨rfl, rfl⟩
  have hdetach : ∀ st' : VitState,
      patchWeightId ∉ (prepare_tokens_grad st' false).deps
        ∧ patchBiasId ∉ (prepare_tokens_grad st' false).deps := by
    intro st'
    constructor <;>
      · simp only [prepare_tokens_grad, detach, patch_embed_out, patchWeightId, patchBiasId,
          clsTokenId, posEmbedId]
        split_ifs <;> simp
  exact ⟨hflags.1, hflags.2, (hdetach st).1, (hdetach st).2, hdetach⟩

/-- Witness for C9 at the `vit_small`-like configuration. -/
theorem patch_proj_frozen_and_detached_witness :
    vitStateSmall.patchProjWeightGrad = false
      ∧ vitStateSmall.patchProjBiasGrad = false
      ∧ patchWeightId ∉ (prepare_tokens_grad vitStateSmall false).deps := by
  have h := patch_proj_frozen_and_detached cfgSmall vitStateSmall (by rfl)
  exact ⟨h.1, h.2.1, h.2.2.1⟩

/-- C3: on an input batch of the configured image size (height and width equal
to `img_size`, which is divisible by `patch_size`), `prepare_tokens` succeeds
and produces a token sequence of length `(H/p) * (W/p)` patch tokens plus the
special tokens (1, or 2 with a distillation token). -/
theorem prepare_tokens_seq_len (cfg : VitCfg) (x : ImgShape)
    (hC : x.C = cfg.inChans) (hH : x.H = cfg.imgSize) (hW : x.W = cfg.imgSize)
    (hp : 0 < cfg.patchSize) (himg : 0 < cfg.imgSize) (hdvd : cfg.patchSize ∣ cfg.imgSize) :
    prepare_tokens_shape cfg x
      = some ⟨x.B,
          num_special_tokens cfg + (x.H / cfg.patchSize) * (x.W / cfg.patchSize),
          cfg.embedDim⟩ := by
  have hle : cfg.patchSize ≤ cfg.imgSize := Nat.le_of_dvd himg hdvd
  have hceil : (cfg.imgSize + cfg.patchSize - 1) / cfg.patchSize
      = cfg.imgSize / cfg.patchSize := by
    obtain ⟨k, hk⟩ := hdvd
    have h1 : cfg.imgSize + cfg.patchSize - 1
        = (cfg.patchSize - 1) + cfg.patchSize * k := by omega
    rw [h1, Nat.add_mul_div_left _ _ hp, Nat.div_eq_of_lt (by omega), hk,
      Nat.mul_div_cancel_left _ hp]
    omega
  have hconv : conv_patch_shape cfg x
      = some ⟨x.B, (x.H / cfg.patchSize) * (x.W / cfg.patchSize), cfg.embedDim⟩ := by
    rw [conv_patch_shape, if_pos]
    exact ⟨hC, hp, by omega, by omega⟩
  have hcond : num_special_tokens cfg + (x.H / cfg.patchSize) * (x.W / cfg.patchSize)
      = pos_embed_len cfg := by
    rw [pos_embed_len, hceil, hH, hW]
  rw [prepare_tokens_shape, hconv, Option.some_bind]
  simp [hcond]

/-- Witness for C3: the spec's example — image 224, patch 16, no distillation
token — yields sequence length `(224/16)² + 1 = 197`. -/
theorem prepare_tokens_seq_len_witness :
    (16 : ℕ) ∣ 224
      ∧ prepare_tokens_shape cfgSmall ⟨1, 3, 224, 224⟩ = some ⟨1, 197, 384⟩ := by
  refine ⟨by decide, ?_⟩
  have h := prepare_tokens_seq_len cfgSmall ⟨1, 3, 224, 224⟩ rfl rfl rfl
    (by decide) (by decide) (by decide)
  rw [h]
  decide

/-- C2 (refuted, code bug): `get_last_selfattention` raises a shape error on
every input: `Block.forward` first applies `self.proj = nn.Linear(2*dim, dim)`,
but unlike `VisionTransformer.forward` the attention-inspection path never
concatenates `[x, x]` along the channel axis, so the very first block call sees
`dim` channels where `2*dim` are required. -/
theorem get_last_selfattention_raises (cfg : VitCfg) (x : ImgShape)
    (hdim : 0 < cfg.embedDim) :
    get_last_selfattention_shape cfg x = none := by
  unfold get_last_selfattention_shape
  cases hprep : prepare_tokens_shape cfg x with
  | none => rfl
  | some s =>
    have hsC : s.C = cfg.embedDim := by
      unfold prepare_tokens_shape at hprep
      cases hconv : conv_patch_shape cfg x with
      | none => rw [hconv] at hprep; simp at hprep
      | some p =>
        rw [hconv, Option.some_bind] at hprep
        split at hprep
        · injection hprep with h
          rw [← h]
        · simp at hprep
    have hproj : linear_shape (2 * cfg.embedDim) cfg.embedDim s = none := by
      rw [linear_shape, if_neg]
      rw [hsC]
      omega
    rw [Option.some_bind]
    split
    · rfl
    · cases hd : cfg.depth - 1 with
      | zero =>
        simp only [iterate_blocks, Option.some_bind, block_attn_shape, hproj, Option.none_bind]
      | succ k =>
        simp only [iterate_blocks, block_shape, hproj, Option.none_bind]

/-- Witness for C2's refutation at the `vit_small` configuration on a
`(1, 3, 224, 224)` batch. -/
theorem get_last_selfattention_raises_witness :
    (0 : ℕ) < 384 ∧ get_last_selfattention_shape cfgSmall ⟨1, 3, 224, 224⟩ = none :=
  ⟨by decide, get_last_selfattention_raises cfgSmall ⟨1, 3, 224, 224⟩ (by decide)⟩

/-- C8: `VisionTransformer.forward` returns, per batch element and channel,
the mean over ALL token positions of the `norms[-1]`-normalized final sequence
(its codomain `Fin B → Fin E → ℝ` is exactly shape `(batch, embed_dim)`);
the last two conjuncts exhibit a concrete run where this mean (`= 1`) differs
from the class-token (position 0) value alone (`= 0`). -/
theorem vit_forward_mean_all_tokens :
    (∀ (B N E depth : ℕ) (blocks : ℕ → (Tens B N (E + E) → Tens B N E))
        (norms : ℕ → (Tens B N E → Tens B N E)) (x0 : Tens B N E)
        (b : Fin B) (e : Fin E),
        vit_forward depth blocks norms x0 b e
          = (∑ n, norms (depth - 1)
                ((List.range depth).foldl (fun x i => blocks i (catLastDim x x)) x0) b n e)
              / (N : ℝ))
      ∧ vit_forward 1 exBlocks exNorms exTokens 0 0 = 1
      ∧ exNorms 0 ((List.range 1).foldl (fun x i => exBlocks i (catLastDim x x)) exTokens)
          0 0 0 = 0 := by
  refine ⟨fun B N E depth blocks norms x0 b e => rfl, ?_, ?_⟩
  · show (∑ n, exNorms 0
        ((List.range 1).foldl (fun x i => exBlocks i (catLastDim x x)) exTokens) 0 n 0)
      / ((2 : ℕ) : ℝ) = 1
    rw [show List.range 1 = [0] from rfl, List.foldl_cons, List.foldl_nil]
    norm_num [exBlocks, exNorms, exTokens, catLastDim, Fin.sum_univ_two]
  · rw [show List.range 1 = [0] from rfl, List.foldl_cons, List.foldl_nil]
    norm_num [exBlocks, exNorms, exTokens, catLastDim]

/-- C5: both InfoNCE formulations are invariant under rescaling all input
embeddings by any non-zero scalar `c`, because both sides are L2-normalized
before the similarity matrix is formed. -/
theorem info_nce_scale_invariance (w b d m d2 : ℕ) (rank : Fin w)
    (s : Fin b → Fin d → ℝ) (t : Fin (w * b) → Fin d → ℝ)
    (temperature : ℝ) (features : Fin (2 * m) → Fin d2 → ℝ) (c : ℝ) (hc : c ≠ 0) :
    info_nce_loss rank (fun i j => c * s i j) (fun i j => c * t i j)
        = info_nce_loss rank s t
      ∧ simclr_info_nce_loss temperature (fun i j => c * features i j)
        = simclr_info_nce_loss temperature features := by
  constructor
  · simp only [info_nce_loss]
    rw [sim_matrix_smul c hc]
  · simp only [simclr_info_nce_loss]
    rw [sim_matrix_smul c hc]

/-- Witness for C5 at `c = 2` on concrete one-feature batches. -/
theorem info_nce_scale_invariance_witness :
    (2 : ℝ) ≠ 0
      ∧ info_nce_loss rank0 (fun i j => 2 * cS10 i j) (fun i j => 2 * cT10 i j)
          = info_nce_loss rank0 cS10 cT10
      ∧ simclr_info_nce_loss 0.5 (fun (i : Fin (2 * 1)) (j : Fin 1) => 2 * cT10 i j)
          = simclr_info_nce_loss 0.5 cT10 := by
  have h := info_nce_scale_invariance 2 1 1 1 1 rank0 cS10 cT10 0.5 cT10 2 (by norm_num)
  exact ⟨by norm_num, h.1, h.2⟩

/-- C10: both cross-batch InfoNCE functions return `2 * tau` times the
cross-entropy of the temperature-scaled similarity logits against the
rank-offset identity labels, with `tau = 0.2` — i.e. `0.4 ×` the
cross-entropy, which (last conjunct, concrete input) differs from the raw
cross-entropy value. -/
theorem info_nce_returns_two_tau_times_ce :
    (∀ (w b d : ℕ) (rank : Fin w) (s : Fin b → Fin d → ℝ) (t : Fin (w * b) → Fin d → ℝ),
        info_nce_loss rank s t
          = 0.4 * cross_entropy_mean (fun i j => sim_matrix s t i j / 0.2)
              (fun i => nce_label rank i))
      ∧ (∀ (w b' dep d : ℕ) (rank : Fin w) (s : Fin (dep * b') → Fin d → ℝ)
            (t : Fin (w * b') → Fin d → ℝ),
          info_nce_loss_layer rank s t
            = 0.4 * cross_entropy_mean (fun i j => sim_matrix s t i j / 0.2)
                (fun i => layer_label rank i))
      ∧ info_nce_loss rank0 cS10 cT10
          ≠ cross_entropy_mean (fun i j => sim_matrix cS10 cT10 i j / 0.2)
              (fun i => nce_label rank0 i) := by
  have hmain : ∀ (w b d : ℕ) (rank : Fin w) (s : Fin b → Fin d → ℝ)
      (t : Fin (w * b) → Fin d → ℝ),
      info_nce_loss rank s t
        = 0.4 * cross_entropy_mean (fun i j => sim_matrix s t i j / 0.2)
            (fun i => nce_label rank i) := by
    intro w b d rank s t
    simp only [info_nce_loss, moco_loss_of_sim]
    norm_num
  refine ⟨hmain, ?_, ?_⟩
  · intro w b' dep d rank s t
    simp only [info_nce_loss_layer, moco_layer_loss_of_sim]
    norm_num
  · have hsim : sim_matrix cS10 cT10 = fun _ _ => (1 : ℝ) := by
      funext i j
      simp [sim_matrix, dotp, l2normalize, cS10, cT10, Fin.sum_univ_one, Real.sqrt_one]
    have hce : cross_entropy_mean (fun i j => sim_matrix cS10 cT10 i j / 0.2)
        (fun i => nce_label rank0 i) = Real.log 2 := by
      rw [hsim]
      simp only [cross_entropy_mean]
      rw [Finset.sum_const, Finset.sum_const, Finset.card_univ, Finset.card_univ,
        Fintype.card_fin, Fintype.card_fin]
      have h2 : Real.exp ((1 : ℝ) / 0.2) + Real.exp ((1 : ℝ) / 0.2)
          = 2 * Real.exp ((1 : ℝ) / 0.2) := by ring
      norm_num [nsmul_eq_mul]
      rw [show (2 : ℝ) * Real.exp 5 = 2 * Real.exp 5 from rfl,
        Real.log_mul (by norm_num) (Real.exp_ne_zero _), Real.log_exp]
      ring
    rw [hmain 2 1 1 rank0 cS10 cT10, hce]
    have hl : 0 < Real.log 2 := Real.log_pos (by norm_num)
    intro heq
    nlinarith

theorem list_getD_replicate {α : Type} (n i : ℕ) (a dflt : α) (h : i < n) :
    (List.replicate n a).getD i dflt = a := by
  induction n generalizing i with
  | zero => omega
  | succ m ih =>
    cases i with
    | zero => rfl
    | succ j =>
      show (List.replicate m a).getD j dflt = a
      exact ih j (by omega)

/-- C6 (amended): the KNN evaluator reports exactly 100% top-1 accuracy on a
synthetic evaluation set in which every validation sample has a non-zero
embedding with an exact duplicate in the (at-least-`k`-entry) reference bank
carrying the correct (in-range) label, *provided* every bank entry with a
different label has non-positive cosine similarity to the sample.  (The extra
proviso is forced by the counterexample: wrong-labeled bank entries highly
similar to the sample can outvote the exact duplicate.) -/
theorem knn_duplicate_top1 {d : ℕ} (bank : List (Fin d → ℝ)) (labels : List ℕ)
    (val : List ((Fin d → ℝ) × ℕ))
    (hbank : 20 ≤ bank.length)
    (hval : val ≠ [])
    (hsamples : ∀ s ∈ val, s.2 < knn_num_classes ∧ s.1 ≠ 0
      ∧ (∃ j, j < bank.length ∧ bank.getD j 0 = s.1 ∧ labels.getD j 0 = s.2)
      ∧ ∀ i, i < bank.length → labels.getD i 0 ≠ s.2 → knn_sims bank s.1 i ≤ 0) :
    knn_top1 bank labels val = some 100 := by
  rw [knn_top1, if_neg (by omega)]
  have hfilter : val.filter (fun s => decide (knn_predict bank labels s.1 = s.2)) = val := by
    apply List.filter_eq_self.mpr
    intro s hs
    obtain ⟨h1, h2, h3, h4⟩ := hsamples s hs
    exact decide_eq_true (knn_predict_correct bank labels s.1 s.2 h1 h2 h3 h4)
  rw [hfilter]
  have hlen0 : val.length ≠ 0 := fun h => hval (List.length_eq_zero.mp h)
  have hlen : ((val.length : ℝ)) ≠ 0 := Nat.cast_ne_zero.mpr hlen0
  congr 1
  rw [mul_comm, mul_div_assoc, div_self hlen, mul_one]

/-- Witness for the amended C6: the duplicate of the sample plus nineteen
zero vectors with a different label gives exactly 100% top-1. -/
theorem knn_duplicate_top1_witness :
    knn_top1 wBank wLabels [(cexQ, 0)] = some 100 := by
  apply knn_duplicate_top1
  · simp [wBank]
  · simp
  · intro s hs
    simp only [List.mem_singleton] at hs
    subst hs
    refine ⟨by norm_num [knn_num_classes], ?_, ⟨0, by simp [wBank], rfl, rfl⟩, ?_⟩
    · intro h
      have h0 := congrFun h 0
      norm_num [cexQ] at h0
    · intro i hi hlab
      have hi0 : i ≠ 0 := by
        intro h
        subst h
        exact hlab rfl
      obtain ⟨k, rfl⟩ : ∃ k, i = k + 1 := ⟨i - 1, by omega⟩
      have hk : k < 19 := by
        have h20 : k + 1 < wBank.length := hi
        simp [wBank] at h20
        omega
      have hbk : wBank.getD (k + 1) 0 = (fun _ : Fin 1 => (0 : ℝ)) := by
        show (List.replicate 19 (fun _ : Fin 1 => (0 : ℝ))).getD k 0
          = fun _ : Fin 1 => (0 : ℝ)
        exact list_getD_replicate 19 k _ _ hk
      rw [knn_sims, hbk]
      have hz : l2normalize (fun _ : Fin 1 => (0 : ℝ)) = (fun _ : Fin 1 => (0 : ℝ)) := by
        funext i2
        simp [l2normalize]
      rw [hz]
      simp [dotp]

/-- `insertionSort` fixes any pair list whose similarity entries are all equal
to `1` (all comparisons are ties, and `orderedInsert` keeps order on ties). -/
theorem insertionSort_const_val :
    ∀ l : List (ℕ × ℝ), (∀ p ∈ l, p.2 = 1) → List.insertionSort knn_r l = l := by
  intro l
  induction l with
  | nil => intro _; rfl
  | cons a t ih =>
    intro h
    have ht := ih fun p hp => h p (List.mem_cons_of_mem a hp)
    show List.orderedInsert knn_r a (List.insertionSort knn_r t) = a :: t
    rw [ht]
    cases t with
    | nil => rfl
    | cons b t2 =>
      have hr : knn_r a b := by
        rw [knn_r, h a (List.mem_cons_self a _),
          h b (List.mem_cons_of_mem a (List.mem_cons_self b t2))]
      show List.orderedInsert knn_r a (b :: t2) = a :: b :: t2
      rw [List.orderedInsert, if_pos hr]

/-- C6 (counterexample to the claim as stated): the bank holds the sample's
exact duplicate with the correct label `0` (first three conjuncts — the
claim's hypothesis), yet nineteen wrong-labeled copies outvote it and the
reported top-1 accuracy is not 100%. -/
theorem knn_duplicate_top1_counterexample :
    cexBank.getD 0 0 = cexQ ∧ cexLabels.getD 0 0 = 0 ∧ 20 ≤ cexBank.length
      ∧ knn_top1 cexBank cexLabels [(cexQ, 0)] ≠ some 100 := by
  have hqne : cexQ ≠ 0 := by
    intro h
    have h0 := congrFun h 0
    norm_num [cexQ] at h0
  have hw : 0 < knn_weight 1 := Real.exp_pos _
  have hlen : cexBank.length = 20 := by simp [cexBank]
  have hsims : ∀ i, i < 20 → knn_sims cexBank cexQ i = 1 := by
    intro i hi
    rw [knn_sims]
    have hb : cexBank.getD i 0 = cexQ :=
      list_getD_replicate 20 i cexQ 0 hi
    rw [hb]
    exact dotp_l2normalize_self cexQ hqne
  have hpairs : knn_pairs cexBank cexQ = (List.range 20).map (fun i => (i, (1 : ℝ))) := by
    rw [knn_pairs, hlen]
    apply List.map_congr_left
    intro i hi
    rw [hsims i (List.mem_range.mp hi)]
  have htop : knn_topk cexBank cexQ = (List.range 20).map (fun i => (i, (1 : ℝ))) := by
    rw [knn_topk, hpairs, insertionSort_const_val _ ?hall, List.take_of_length_le (by simp)]
    case hall =>
      intro p hp
      obtain ⟨i, _, hpe⟩ := List.mem_map.mp hp
      rw [← hpe]
  have hprobs : ∀ c, knn_probs cexLabels ((List.range 20).map (fun i => (i, (1 : ℝ)))) c
      = (if (0 : ℕ) = c then knn_weight 1 else 0)
        + 19 * (if (1 : ℕ) = c then knn_weight 1 else 0) := by
    intro c
    rw [knn_probs, List.map_map]
    rw [show (20 : ℕ) = 19 + 1 from rfl, List.range_succ_eq_map]
    rw [List.map_cons, List.sum_cons, List.map_map]
    have htail : ∀ x ∈ List.range 19,
        (((fun p : ℕ × ℝ => if cexLabels.getD p.1 0 = c then knn_weight p.2 else 0)
            ∘ fun i => (i, (1 : ℝ))) ∘ Nat.succ) x
          = (if (1 : ℕ) = c then knn_weight 1 else 0) := by
      intro x hx
      have hx19 := List.mem_range.mp hx
      simp only [Function.comp_apply]
      have hlab : cexLabels.getD (Nat.succ x) 0 = 1 := by
        show (List.replicate 19 1).getD x 0 = 1
        exact list_getD_replicate 19 x 1 0 hx19
      rw [hlab]
    rw [List.map_congr_left htail, List.map_const', List.length_range, List.sum_replicate]
    have hhead : ((fun p : ℕ × ℝ => if cexLabels.getD p.1 0 = c then knn_weight p.2 else 0)
        ∘ fun i => (i, (1 : ℝ))) 0 = (if (0 : ℕ) = c then knn_weight 1 else 0) := by
      simp only [Function.comp_apply]
      rw [show cexLabels.getD 0 0 = 0 from rfl]
    rw [hhead, nsmul_eq_mul]
    norm_num
  have hpred : knn_predict cexBank cexLabels cexQ = 1 := by
    rw [knn_predict, htop]
    apply argmax_aux_eq
    · rw [knn_num_classes]
      exact List.mem_range.mpr (by norm_num)
    · right
      rw [hprobs 0, hprobs 1]
      norm_num
      nlinarith
    · intro x _ hne
      rw [hprobs x, hprobs 1]
      rcases eq_or_ne x 0 with rfl | hx0
      · norm_num
        nlinarith
      · rw [if_neg (Ne.symm hx0), if_neg (Ne.symm hne), if_neg (by norm_num), if_pos rfl]
        norm_num
        nlinarith
  refine ⟨rfl, rfl, by omega, ?_⟩
  rw [knn_top1, if_neg (by omega)]
  have hfilter : ([(cexQ, 0)] : List ((Fin 1 → ℝ) × ℕ)).filter
      (fun s => decide (knn_predict cexBank cexLabels s.1 = s.2)) = [] := by
    simp [List.filter, hpred]
  rw [hfilter]
  intro hcontra
  rw [Option.some_inj] at hcontra
  norm_num at hcontra

end ByolPytorch
